import Mathlib

/-!
Formal model of the violin-coach performance-grading and tempo-adaptive
transport engine (`src/src/components/Metronome.tsx`), together with
theorems settling the specification's claims about it.

Conventions of the embedding:
* JavaScript numbers that the code only ever uses at integer values
  (MIDI pitches, thresholds, positions) are modelled as `Int`/`Nat`;
  general numeric values (cents, timestamps, BPM, seconds) as `ℚ`.
* The possibly-non-finite argument of `sanitizeBpm` is modelled by the
  explicit sum type `JSNum` (finite value, NaN, or an infinity).
* React refs / state cells touched by a function are gathered into an
  explicit state structure; the function becomes a pure state transition.
* The external OpenSheetMusicDisplay cursor is modelled as a position in a
  list of time slices (`CursorStep`), each carrying its 0-based measure
  index, its timestamp, and the number of notes under the cursor there.
-/

/-- A gradable musical element, from the `MusicalElement` type of the
source (`midi` required, the rest optional). -/
structure MusicalElement where
  midi : Int
  accidental : Option Int
  dynamic : Option String
  articulation : Option String
  position : Option Int
  stringName : Option String
deriving DecidableEq, Repr

/-- `correctDuringTransportCents` — the base grading tolerance. -/
def correctDuringTransportCents : Int := 20

/-- `getGradingThreshold` from the source, translated statement by
statement.  The JS truthiness test `element.position && element.position > 1`
is rendered as `p ≠ 0 ∧ p > 1` on the present value (`0` is falsy). -/
def getGradingThreshold : Option MusicalElement → Int
  | none => correctDuringTransportCents
  | some element =>
    let octave : Int := Int.fdiv element.midi 12 - 1
    let b0 : Int :=
      if octave ≥ 6 then 35
      else if octave ≥ 5 then 30
      else if octave ≤ 3 then 25
      else correctDuringTransportCents
    let b1 : Int :=
      match element.accidental with
      | some a => if a ≠ 0 then b0 + 5 else b0
      | none => b0
    let b2 : Int :=
      match element.position with
      | some p => if p ≠ 0 ∧ p > 1 then b1 + (p - 1) * 3 else b1
      | none => b1
    let b3 : Int := if element.stringName = some "E" then b2 + 3 else b2
    let b4 : Int := if element.articulation = some "staccato" then b3 + 2 else b3
    min 50 b4

/-- The threshold as the claim words it: a base picked from the octave,
plus `5` for a present non-zero accidental, plus `3*(position-1)` when
`position > 1`, plus `3` on the E string, plus `2` for staccato, clamped
above at `50`; `20` with no element. -/
def gradingThresholdSpec : Option MusicalElement → Int
  | none => 20
  | some e =>
    let octave : Int := Int.fdiv e.midi 12 - 1
    let base : Int :=
      if octave ≥ 6 then 35
      else if octave ≥ 5 then 30
      else if octave ≤ 3 then 25
      else 20
    let accAdj : Int :=
      match e.accidental with
      | some a => if a ≠ 0 then 5 else 0
      | none => 0
    let posAdj : Int :=
      match e.position with
      | some p => if p > 1 then 3 * (p - 1) else 0
      | none => 0
    let strAdj : Int := if e.stringName = some "E" then 3 else 0
    let artAdj : Int := if e.articulation = some "staccato" then 2 else 0
    min 50 (base + accAdj + posAdj + strAdj + artAdj)

/-- First loop of `normalizeCents`: `while (n > 600) n -= 1200`. -/
def normalizeHigh (n : ℚ) : ℚ :=
  if 600 < n then normalizeHigh (n - 1200) else n
termination_by (⌈(n - 600) / 1200⌉).toNat
decreasing_by
  have h1 : (n - 1200 - 600) / 1200 = (n - 600) / 1200 - 1 := by ring
  have h2 : ⌈(n - 1200 - 600) / 1200⌉ = ⌈(n - 600) / 1200⌉ - 1 := by
    rw [h1, Int.ceil_sub_one]
  have h3 : 0 < ⌈(n - 600) / 1200⌉ := by
    rw [Int.ceil_pos]
    exact div_pos (by linarith) (by norm_num)
  omega

/-- Second loop of `normalizeCents`: `while (n <= -600) n += 1200`. -/
def normalizeLow (n : ℚ) : ℚ :=
  if n ≤ -600 then normalizeLow (n + 1200) else n
termination_by (⌈(-600 - n) / 1200⌉ + 1).toNat
decreasing_by
  have h1 : (-600 - (n + 1200)) / 1200 = (-600 - n) / 1200 - 1 := by ring
  have h2 : ⌈(-600 - (n + 1200)) / 1200⌉ = ⌈(-600 - n) / 1200⌉ - 1 := by
    rw [h1, Int.ceil_sub_one]
  have h3 : 0 ≤ ⌈(-600 - n) / 1200⌉ := by
    apply Int.ceil_nonneg
    exact div_nonneg (by linarith) (by norm_num)
  omega

/-- `normalizeCents` from the source: keep the value within `(-600, 600]`
by repeatedly subtracting, then adding, `1200`. -/
def normalizeCents (cents : ℚ) : ℚ :=
  normalizeLow (normalizeHigh cents)

/-- A JavaScript number as `sanitizeBpm` distinguishes them: finite, or
one of the non-finite values rejected by `Number.isFinite`. -/
inductive JSNum where
  | val (q : ℚ)
  | nan
  | posInf
  | negInf
deriving DecidableEq, Repr

/-- `sanitizeBpm` from the source: non-finite input becomes `80`,
everything else is floored and clamped into `[20, 240]`. -/
def sanitizeBpm : JSNum → Int
  | JSNum.val q => min 240 (max 20 ⌊q⌋)
  | JSNum.nan => 80
  | JSNum.posInf => 80
  | JSNum.negInf => 80

/-- `secondsPerBeat` from the source: `60 / sanitizeBpm(currentBpm)`. -/
def secondsPerBeat (currentBpm : JSNum) : ℚ :=
  60 / (sanitizeBpm currentBpm : ℚ)

/-- Per-beat classification emitted at a beat boundary. -/
inductive Classification where
  | correct
  | incorrect
  | missed
deriving DecidableEq, Repr

/-- The classification expression of the transport `step` callback:
`correct` when the window saw an accurate pitch, else `incorrect` when it
saw any pitch, else `missed`. -/
def classifyBeat (hadAccurate hadAnyPitch : Bool) : Classification :=
  if hadAccurate then Classification.correct
  else if hadAnyPitch then Classification.incorrect
  else Classification.missed

/-- The mutable cells of the transport/tempo machinery (React state and
refs of the source component), gathered into one record.  `scheduled` is
the absolute time at which the pending `setTimeout` beat callback fires
(`none` when no timer is armed). -/
structure TransportState where
  isTransportRunning : Bool
  cursorPresent : Bool
  cursorElPresent : Bool
  endReached : Bool
  dynamicTempoEnabled : Bool
  bpm : ℚ
  currentBpm : ℚ
  consecutiveErrors : Nat
  lastErrorTimeMs : ℚ
  seq : List MusicalElement
  stepIndex : Nat
  hadAccurate : Bool
  hadAnyPitch : Bool
  marks : List Classification
  scheduled : Option ℚ
deriving DecidableEq, Repr

/-- `updateDynamicTempo` from the source: a no-op unless enabled; on an
inaccurate beat bump `consecutiveErrors`, stamp `lastErrorTimeMs`, and
after two consecutive errors slow down by 8 BPM (floor 40); on an
accurate beat clear `consecutiveErrors` and, after more than 5000 ms
without errors, speed up by 2 BPM (capped at the base `bpm`). -/
def updateDynamicTempo (wasAccurate : Bool) (now : ℚ) (s : TransportState) :
    TransportState :=
  if s.dynamicTempoEnabled = false then s
  else if wasAccurate = false then
    let s1 := { s with consecutiveErrors := s.consecutiveErrors + 1,
                       lastErrorTimeMs := now }
    if s1.consecutiveErrors ≥ 2 then
      { s1 with currentBpm := max 40 (s1.currentBpm - 8) }
    else s1
  else
    let s1 := { s with consecutiveErrors := 0 }
    if now - s1.lastErrorTimeMs > 5000 then
      { s1 with currentBpm := min s1.bpm (s1.currentBpm + 2) }
    else s1

/-- `stopTransport` from the source: clear the pending beat timer and drop
the running flag. -/
def stopTransport (s : TransportState) : TransportState :=
  { s with scheduled := none, isTransportRunning := false }

/-- The transport `step` callback from the source, run at time `now` with
the captured `secondsPerBeat` value `spb`: stop when the cursor iterator
is exhausted; otherwise (when the visual cursor element is available)
emit the beat's classification mark and feed it to the dynamic-tempo
controller, reset the grading window, advance the sequence index
(stopping at the end of the sequence), and re-arm the beat timer with
`setTimeout(step, secondsPerBeat * 1000)` — i.e. at `now + spb`. -/
def stepTransport (now spb : ℚ) (s : TransportState) : TransportState :=
  if s.endReached then stopTransport s
  else
    let s1 :=
      if s.cursorElPresent then
        let kind := classifyBeat s.hadAccurate s.hadAnyPitch
        updateDynamicTempo s.hadAccurate now { s with marks := s.marks ++ [kind] }
      else s
    let s2 := { s1 with hadAccurate := false, hadAnyPitch := false }
    if s2.seq.length > 0 then
      let nextIdx := s2.stepIndex + 1
      if nextIdx < s2.seq.length then
        { s2 with stepIndex := nextIdx, scheduled := some (now + spb) }
      else stopTransport s2
    else { s2 with scheduled := some (now + spb) }

/-- `startTransport` from the source, invoked at time `now` with the
current `secondsPerBeat` value `spb`: return unchanged when already
running or when no cursor exists; otherwise set the running flag, reset
the tempo state when (and only when) dynamic tempo is enabled, and arm
the first beat timer. -/
def startTransport (now spb : ℚ) (s : TransportState) : TransportState :=
  if s.isTransportRunning then s
  else if s.cursorPresent = false then s
  else
    let s1 := { s with isTransportRunning := true }
    let s2 :=
      if s1.dynamicTempoEnabled then
        { s1 with currentBpm := s1.bpm, consecutiveErrors := 0,
                  lastErrorTimeMs := 0 }
      else s1
    { s2 with scheduled := some (now + spb) }

/-- The stable-accuracy gate of the `listen` tick (`stableForMsRef`):
`t` is the stored streak start (`0` meaning empty).  Returns the updated
streak start and whether the transport is started on this sample.  An
accurate sample stamps the streak start if empty and fires once
`now - start > 250`; an inaccurate sample clears the streak. -/
def stableStep (t now : ℚ) (isAccurate : Bool) : ℚ × Bool :=
  if isAccurate then
    let t1 := if t = 0 then now else t
    (t1, now - t1 > 250)
  else (0, false)

/-- One time slice of the OSMD cursor iteration: its 0-based measure
index (`CurrentMeasureIndex`), its timestamp (`RealValue` of the
iterator's fraction), and how many notes lie under the cursor there. -/
structure CursorStep where
  measureIdx : Nat
  timestamp : ℚ
  notes : Nat
deriving DecidableEq, Repr

/-- `(cursor.Iterator?.CurrentMeasureIndex || 0) + 1` — the 1-based
measure at a cursor position, `1` when the position is out of range. -/
def curMeasureAt (score : List CursorStep) (pos : Nat) : Nat :=
  match score[pos]? with
  | some st => st.measureIdx + 1
  | none => 1

/-- `getTimestampReal` of the slice at a position (`none` out of range). -/
def tsAt (score : List CursorStep) (pos : Nat) : Option ℚ :=
  (score[pos]?).map (fun st => st.timestamp)

/-- `getNotesUnderCursor(...).length` at a position (`0` out of range). -/
def notesAt (score : List CursorStep) (pos : Nat) : Nat :=
  match score[pos]? with
  | some st => st.notes
  | none => 0

/-- `getFirstNoteTimestampForMeasure` from the source: the timestamp of
the first vertical slice of measure `n` that actually contains notes
(the slices of measure `n` are those tagged with measure index `n - 1`). -/
def getFirstNoteTimestampForMeasure (n : Nat) : List CursorStep → Option ℚ
  | [] => none
  | st :: rest =>
    if st.measureIdx + 1 = n ∧ 0 < st.notes then some st.timestamp
    else getFirstNoteTimestampForMeasure n rest

/-- The break condition of the first `jumpToMeasure` scan:
`firstTs == null || (typeof curTs === 'number' && curTs >= firstTs)`. -/
def reachedFirstTs (firstTs curTs : Option ℚ) : Bool :=
  match firstTs with
  | none => true
  | some f =>
    match curTs with
    | some t => decide (f ≤ t)
    | none => false

/-- First `jumpToMeasure` scan (`while (guard++ < 4096)`): advance the
cursor until it passes the target measure, or sits in the target measure
at or after the first note timestamp. -/
def scanToMeasure (score : List CursorStep) (n : Nat) (firstTs : Option ℚ) :
    Nat → Nat → Nat
  | pos, 0 => pos
  | pos, fuel + 1 =>
    let m := curMeasureAt score pos
    if n < m then pos
    else if m = n ∧ reachedFirstTs firstTs (tsAt score pos) then pos
    else scanToMeasure score n firstTs (pos + 1) fuel

/-- Second `jumpToMeasure` scan (`while (tries++ < 256)`): within the
target measure, advance until the cursor sits on a slice with notes. -/
def scanToNote (score : List CursorStep) (n : Nat) : Nat → Nat → Nat
  | pos, 0 => pos
  | pos, fuel + 1 =>
    if curMeasureAt score pos ≠ n then pos
    else if 0 < notesAt score pos then pos
    else scanToNote score n (pos + 1) fuel

/-- `jumpToMeasure` from the source, as the cursor movement it performs:
`cursor.reset()` discards the prior position, then the two scans place
the cursor in measure `n`.  `priorPos` is the cursor position before the
call; the result is the position after it. -/
def jumpToMeasure (n : Nat) (score : List CursorStep) (priorPos : Nat) : Nat :=
  let firstTs := getFirstNoteTimestampForMeasure n score
  let p1 := scanToMeasure score n firstTs 0 4096
  scanToNote score n p1 256

/-- A plain middle-C element (no optional attributes). -/
def elemC4 : MusicalElement :=
  { midi := 60, accidental := none, dynamic := none, articulation := none,
    position := none, stringName := none }

/-- A plain D4 element. -/
def elemD4 : MusicalElement :=
  { midi := 62, accidental := none, dynamic := none, articulation := none,
    position := none, stringName := none }

/-- A concrete transport state used to instantiate the theorems: idle,
cursor available, dynamic tempo off, a two-element sequence. -/
def baseState : TransportState :=
  { isTransportRunning := false, cursorPresent := true, cursorElPresent := true,
    endReached := false, dynamicTempoEnabled := false, bpm := 64,
    currentBpm := 64, consecutiveErrors := 0, lastErrorTimeMs := 0,
    seq := [elemC4, elemD4], stepIndex := 0, hadAccurate := false,
    hadAnyPitch := false, marks := [], scheduled := none }

/-- `baseState`, but with the transport already running. -/
def runningState : TransportState :=
  { baseState with isTransportRunning := true }

/-- `baseState`, but with dynamic tempo enabled and a drifted tempo. -/
def tempoOnState : TransportState :=
  { baseState with
    dynamicTempoEnabled := true, currentBpm := 56,
    consecutiveErrors := 1, lastErrorTimeMs := 1000 }

/-- `baseState`, dynamic tempo disabled, after tempo drift and errors. -/
def driftedState : TransportState :=
  { baseState with currentBpm := 50, consecutiveErrors := 3 }

/-- `baseState` with an empty score sequence. -/
def emptySeqState : TransportState :=
  { baseState with seq := [] }

/-- `runningState` with a beat timer armed to fire at time 10. -/
def beatState : TransportState :=
  { runningState with scheduled := some 10 }

/-- A concrete three-slice score: a rest slice opening measure 1, the
first note slice of measure 1, then a slice of measure 2. -/
def sampleScore : List CursorStep :=
  [{ measureIdx := 0, timestamp := 0, notes := 0 },
   { measureIdx := 0, timestamp := 1, notes := 2 },
   { measureIdx := 1, timestamp := 2, notes := 1 }]

/-! ## Helper lemmas -/

theorem normalizeHigh_le (n : ℚ) : normalizeHigh n ≤ 600 := by
  induction n using normalizeHigh.induct with
  | case1 n h ih => rw [normalizeHigh, if_pos h]; exact ih
  | case2 n h => rw [normalizeHigh, if_neg h]; linarith

theorem normalizeHigh_congr (n : ℚ) :
    ∃ k : ℤ, normalizeHigh n = n + 1200 * (k : ℚ) := by
  induction n using normalizeHigh.induct with
  | case1 n h ih =>
    obtain ⟨k, hk⟩ := ih
    refine ⟨k - 1, ?_⟩
    rw [normalizeHigh, if_pos h, hk]
    push_cast
    ring
  | case2 n h =>
    refine ⟨0, ?_⟩
    rw [normalizeHigh, if_neg h]
    push_cast
    ring

theorem normalizeLow_gt (n : ℚ) : -600 < normalizeLow n := by
  induction n using normalizeLow.induct with
  | case1 n h ih => rw [normalizeLow, if_pos h]; exact ih
  | case2 n h => rw [normalizeLow, if_neg h]; linarith

theorem normalizeLow_le (n : ℚ) (hle : n ≤ 600) : normalizeLow n ≤ 600 := by
  induction n using normalizeLow.induct with
  | case1 n h ih => rw [normalizeLow, if_pos h]; exact ih (by linarith)
  | case2 n h => rw [normalizeLow, if_neg h]; exact hle

theorem normalizeLow_congr (n : ℚ) :
    ∃ k : ℤ, normalizeLow n = n + 1200 * (k : ℚ) := by
  induction n using normalizeLow.induct with
  | case1 n h ih =>
    obtain ⟨k, hk⟩ := ih
    refine ⟨k + 1, ?_⟩
    rw [normalizeLow, if_pos h, hk]
    push_cast
    ring
  | case2 n h =>
    refine ⟨0, ?_⟩
    rw [normalizeLow, if_neg h]
    push_cast
    ring

/-! ## Claim theorems -/

set_option maxHeartbeats 1000000 in
/-- Claim C1: `getGradingThreshold` computes exactly the claimed formula —
base 20 replaced by 35/30/25 by octave, +5 for a present non-zero
accidental, +3·(position−1) when position > 1, +3 on the E string, +2 for
staccato, clamped above at 50 — and returns 20 when no element is
supplied; it is total by construction. -/
theorem gradingThreshold_matches_spec :
    (∀ e, getGradingThreshold e = gradingThresholdSpec e) ∧
    getGradingThreshold none = 20 := by
  refine ⟨?_, rfl⟩
  intro e
  match e with
  | none => rfl
  | some el =>
    rcases el with ⟨midi, acc, dyn, art, pos, str⟩
    rcases acc with _ | a <;> rcases pos with _ | p <;>
      · dsimp only [getGradingThreshold, gradingThresholdSpec,
          correctDuringTransportCents]
        generalize Int.fdiv midi 12 - 1 = oct
        split_ifs <;> omega

/-- Claim C2: `normalizeCents` is total and always lands in `(-600, 600]`,
congruent to its input modulo 1200. -/
theorem normalizeCents_range_congr (c : ℚ) :
    -600 < normalizeCents c ∧ normalizeCents c ≤ 600 ∧
    ∃ k : ℤ, normalizeCents c = c + 1200 * (k : ℚ) := by
  refine ⟨normalizeLow_gt _, normalizeLow_le _ (normalizeHigh_le c), ?_⟩
  obtain ⟨k1, hk1⟩ := normalizeHigh_congr c
  obtain ⟨k2, hk2⟩ := normalizeLow_congr (normalizeHigh c)
  refine ⟨k1 + k2, ?_⟩
  rw [normalizeCents, hk2, hk1]
  push_cast
  ring

/-- Claim C10: `sanitizeBpm` clamps every finite input into `[20, 240]`
and maps every non-finite input to 80, so the beat interval
`secondsPerBeat = 60 / sanitizeBpm(currentBpm)` is always a positive
finite value in `[1/4, 3]` seconds. -/
theorem sanitizeBpm_beat_interval_bounds :
    (∀ x, 20 ≤ sanitizeBpm x ∧ sanitizeBpm x ≤ 240) ∧
    (∀ x, 0 < secondsPerBeat x ∧
      1/4 ≤ secondsPerBeat x ∧ secondsPerBeat x ≤ 3) ∧
    sanitizeBpm JSNum.nan = 80 ∧ sanitizeBpm JSNum.posInf = 80 ∧
    sanitizeBpm JSNum.negInf = 80 := by
  have hb : ∀ x, 20 ≤ sanitizeBpm x ∧ sanitizeBpm x ≤ 240 := by
    intro x
    cases x <;> simp [sanitizeBpm] <;> omega
  refine ⟨hb, ?_, rfl, rfl, rfl⟩
  intro x
  obtain ⟨h20, h240⟩ := hb x
  have h20q : (20 : ℚ) ≤ (sanitizeBpm x : ℚ) := by exact_mod_cast h20
  have h240q : (sanitizeBpm x : ℚ) ≤ 240 := by exact_mod_cast h240
  have hpos : (0 : ℚ) < (sanitizeBpm x : ℚ) := by linarith
  refine ⟨div_pos (by norm_num) hpos, ?_, ?_⟩
  · rw [secondsPerBeat, le_div_iff hpos]
    linarith
  · rw [secondsPerBeat, div_le_iff hpos]
    linarith

theorem updateDynamicTempo_seq (a : Bool) (n : ℚ) (s : TransportState) :
    (updateDynamicTempo a n s).seq = s.seq := by
  simp only [updateDynamicTempo]
  split_ifs <;> rfl

theorem updateDynamicTempo_stepIndex (a : Bool) (n : ℚ) (s : TransportState) :
    (updateDynamicTempo a n s).stepIndex = s.stepIndex := by
  simp only [updateDynamicTempo]
  split_ifs <;> rfl

theorem updateDynamicTempo_marks (a : Bool) (n : ℚ) (s : TransportState) :
    (updateDynamicTempo a n s).marks = s.marks := by
  simp only [updateDynamicTempo]
  split_ifs <;> rfl

/-- Claim C3: at a beat boundary of a running transport (cursor iterator
not exhausted, cursor element available), the emitted classification is
`classifyBeat hadAccurate hadAnyPitch`, which is `correct` iff
`hadAccuratePitch` is set, else `incorrect` iff `hadAnyPitch` is set,
else `missed`. -/
theorem stepTransport_classification (s : TransportState) (now spb : ℚ)
    (hRun : s.isTransportRunning = true) (hEnd : s.endReached = false)
    (hEl : s.cursorElPresent = true) :
    (stepTransport now spb s).marks =
      s.marks ++ [classifyBeat s.hadAccurate s.hadAnyPitch] ∧
    (∀ a b : Bool,
      (classifyBeat a b = Classification.correct ↔ a = true) ∧
      (classifyBeat a b = Classification.incorrect ↔ a = false ∧ b = true) ∧
      (classifyBeat a b = Classification.missed ↔ a = false ∧ b = false)) := by
  constructor
  · simp only [stepTransport, hEnd, hEl, Bool.false_eq_true, if_false, if_true]
    split_ifs <;>
      simp [stopTransport, updateDynamicTempo_marks]
  · intro a b
    cases a <;> cases b <;> simp [classifyBeat]

/-- Witness for C3 at a concrete running state. -/
theorem stepTransport_classification_witness :
    runningState.isTransportRunning = true ∧ runningState.endReached = false ∧
    runningState.cursorElPresent = true ∧
    ((stepTransport 0 1 runningState).marks =
      runningState.marks ++
        [classifyBeat runningState.hadAccurate runningState.hadAnyPitch] ∧
     ∀ a b : Bool,
      (classifyBeat a b = Classification.correct ↔ a = true) ∧
      (classifyBeat a b = Classification.incorrect ↔ a = false ∧ b = true) ∧
      (classifyBeat a b = Classification.missed ↔ a = false ∧ b = false)) :=
  ⟨rfl, rfl, rfl, stepTransport_classification runningState 0 1 rfl rfl rfl⟩

/-- Claim C4: with dynamic tempo enabled, a beat classification updates
the tempo state exactly as claimed — on an inaccurate beat the error
count increments, the error time is stamped, and from two consecutive
errors the tempo drops to `max 40 (currentBpm - 8)`; on an accurate beat
the error count clears and, after more than 5000 ms without an error,
the tempo rises to `min baseBpm (currentBpm + 2)`; otherwise the tempo
is unchanged. -/
theorem updateDynamicTempo_matches_claim (s : TransportState) (now : ℚ)
    (wasAccurate : Bool) (hEn : s.dynamicTempoEnabled = true) :
    (wasAccurate = false →
      (updateDynamicTempo wasAccurate now s).consecutiveErrors =
        s.consecutiveErrors + 1 ∧
      (updateDynamicTempo wasAccurate now s).lastErrorTimeMs = now ∧
      (2 ≤ s.consecutiveErrors + 1 →
        (updateDynamicTempo wasAccurate now s).currentBpm =
          max 40 (s.currentBpm - 8)) ∧
      (s.consecutiveErrors + 1 < 2 →
        (updateDynamicTempo wasAccurate now s).currentBpm = s.currentBpm)) ∧
    (wasAccurate = true →
      (updateDynamicTempo wasAccurate now s).consecutiveErrors = 0 ∧
      (updateDynamicTempo wasAccurate now s).lastErrorTimeMs =
        s.lastErrorTimeMs ∧
      (5000 < now - s.lastErrorTimeMs →
        (updateDynamicTempo wasAccurate now s).currentBpm =
          min s.bpm (s.currentBpm + 2)) ∧
      (¬ 5000 < now - s.lastErrorTimeMs →
        (updateDynamicTempo wasAccurate now s).currentBpm = s.currentBpm)) := by
  cases wasAccurate
  · refine ⟨fun _ => ?_, by simp⟩
    by_cases h2 : 2 ≤ s.consecutiveErrors + 1
    · refine ⟨?_, ?_, fun _ => ?_, fun h => absurd h (by omega)⟩ <;>
        simp [updateDynamicTempo, hEn, h2]
    · refine ⟨?_, ?_, fun h => absurd h h2, fun _ => ?_⟩ <;>
        simp [updateDynamicTempo, hEn, h2]
  · refine ⟨by simp, fun _ => ?_⟩
    by_cases h5 : 5000 < now - s.lastErrorTimeMs
    · refine ⟨?_, ?_, fun _ => ?_, fun h => absurd h5 h⟩ <;>
        simp [updateDynamicTempo, hEn, h5]
    · refine ⟨?_, ?_, fun h => absurd h h5, fun _ => ?_⟩ <;>
        simp [updateDynamicTempo, hEn, h5]

/-- Witness for C4 at a concrete enabled state, an inaccurate beat. -/
theorem updateDynamicTempo_matches_claim_witness :
    tempoOnState.dynamicTempoEnabled = true ∧
    ((false = false →
      (updateDynamicTempo false 7 tempoOnState).consecutiveErrors =
        tempoOnState.consecutiveErrors + 1 ∧
      (updateDynamicTempo false 7 tempoOnState).lastErrorTimeMs = 7 ∧
      (2 ≤ tempoOnState.consecutiveErrors + 1 →
        (updateDynamicTempo false 7 tempoOnState).currentBpm =
          max 40 (tempoOnState.currentBpm - 8)) ∧
      (tempoOnState.consecutiveErrors + 1 < 2 →
        (updateDynamicTempo false 7 tempoOnState).currentBpm =
          tempoOnState.currentBpm)) ∧
    (false = true →
      (updateDynamicTempo false 7 tempoOnState).consecutiveErrors = 0 ∧
      (updateDynamicTempo false 7 tempoOnState).lastErrorTimeMs =
        tempoOnState.lastErrorTimeMs ∧
      (5000 < 7 - tempoOnState.lastErrorTimeMs →
        (updateDynamicTempo false 7 tempoOnState).currentBpm =
          min tempoOnState.bpm (tempoOnState.currentBpm + 2)) ∧
      (¬ 5000 < 7 - tempoOnState.lastErrorTimeMs →
        (updateDynamicTempo false 7 tempoOnState).currentBpm =
          tempoOnState.currentBpm))) :=
  ⟨rfl, updateDynamicTempo_matches_claim tempoOnState 7 false rfl⟩

/-- Claim C5 counterexample: starting the transport with dynamic tempo
disabled leaves a drifted `currentBpm` (50 ≠ baseBpm 64) and a nonzero
error count in place — the reset is not unconditional. -/
theorem startTransport_no_reset_cex :
    driftedState.isTransportRunning = false ∧
    driftedState.dynamicTempoEnabled = false ∧
    driftedState.bpm = 64 ∧
    (startTransport 0 1 driftedState).isTransportRunning = true ∧
    (startTransport 0 1 driftedState).currentBpm = 50 ∧
    (startTransport 0 1 driftedState).consecutiveErrors = 3 := by
  refine ⟨rfl, rfl, by decide, rfl, by decide, rfl⟩

/-- Claim C5 (amended): whenever the transport (re)starts, the tempo
state is reset to `currentBpm = baseBpm`, `consecutiveErrors = 0` exactly
when the dynamic tempo controller is enabled; when it is disabled the
tempo state is left untouched. -/
theorem startTransport_tempo_reset_iff_enabled (s : TransportState)
    (now spb : ℚ) (hIdle : s.isTransportRunning = false)
    (hCur : s.cursorPresent = true) :
    (startTransport now spb s).isTransportRunning = true ∧
    (s.dynamicTempoEnabled = true →
      (startTransport now spb s).currentBpm = s.bpm ∧
      (startTransport now spb s).consecutiveErrors = 0 ∧
      (startTransport now spb s).lastErrorTimeMs = 0) ∧
    (s.dynamicTempoEnabled = false →
      (startTransport now spb s).currentBpm = s.currentBpm ∧
      (startTransport now spb s).consecutiveErrors = s.consecutiveErrors ∧
      (startTransport now spb s).lastErrorTimeMs = s.lastErrorTimeMs) := by
  simp only [startTransport, hIdle, hCur]
  cases hEn : s.dynamicTempoEnabled <;> simp [hEn]

/-- Witness for C5 (amended) at a concrete enabled idle state. -/
theorem startTransport_tempo_reset_iff_enabled_witness :
    tempoOnState.isTransportRunning = false ∧
    tempoOnState.cursorPresent = true ∧
    ((startTransport 2 1 tempoOnState).isTransportRunning = true ∧
     (tempoOnState.dynamicTempoEnabled = true →
       (startTransport 2 1 tempoOnState).currentBpm = tempoOnState.bpm ∧
       (startTransport 2 1 tempoOnState).consecutiveErrors = 0 ∧
       (startTransport 2 1 tempoOnState).lastErrorTimeMs = 0) ∧
     (tempoOnState.dynamicTempoEnabled = false →
       (startTransport 2 1 tempoOnState).currentBpm =
         tempoOnState.currentBpm ∧
       (startTransport 2 1 tempoOnState).consecutiveErrors =
         tempoOnState.consecutiveErrors ∧
       (startTransport 2 1 tempoOnState).lastErrorTimeMs =
         tempoOnState.lastErrorTimeMs)) :=
  ⟨rfl, rfl, startTransport_tempo_reset_iff_enabled tempoOnState 2 1 rfl rfl⟩

/-- Claim C6 counterexample: a beat callback armed for time 10 but
running at time 10.5 (with `secondsPerBeat = 1`) schedules the next beat
at 11.5 = now + interval, not at 11 = previousDeadline + interval. -/
theorem stepTransport_not_prevDeadline_cex :
    beatState.scheduled = some 10 ∧
    beatState.stepIndex + 1 < beatState.seq.length ∧
    (stepTransport (21/2) 1 beatState).scheduled = some (21/2 + 1) ∧
    ¬ (stepTransport (21/2) 1 beatState).scheduled = some (10 + 1) := by
  refine ⟨rfl, by decide, ?_, ?_⟩ <;>
    norm_num [stepTransport, stopTransport, updateDynamicTempo, classifyBeat,
      beatState, runningState, baseState]

/-- Claim C6 (amended): while running, after a beat boundary whose
successor index is still within the sequence, the next beat is armed with
`setTimeout(step, secondsPerBeat*1000)` — an absolute deadline of
`now + secondsPerBeat` measured from the moment the callback runs, so it
equals `previousDeadline + secondsPerBeat` only when the callback fires
exactly at its deadline; callback latency accumulates. -/
theorem stepTransport_schedules_now_plus_interval (s : TransportState)
    (now spb : ℚ) (hEnd : s.endReached = false)
    (hNext : s.stepIndex + 1 < s.seq.length) :
    (stepTransport now spb s).scheduled = some (now + spb) := by
  have h0 : 0 < s.seq.length := by omega
  cases hC : s.cursorElPresent <;>
    simp [stepTransport, hEnd, hC, hNext, h0,
      updateDynamicTempo_seq, updateDynamicTempo_stepIndex]

/-- Witness for C6 (amended) at a concrete beat state. -/
theorem stepTransport_schedules_now_plus_interval_witness :
    beatState.endReached = false ∧
    beatState.stepIndex + 1 < beatState.seq.length ∧
    (stepTransport 3 1 beatState).scheduled = some (3 + 1) :=
  ⟨rfl, by decide,
    stepTransport_schedules_now_plus_interval beatState 3 1 rfl (by decide)⟩

/-- Claim C7 counterexample: starting the transport with an empty score
sequence (cursor present, not yet running) does not refuse — it flips the
running flag and arms a beat timer; no `EmptySequenceError` path exists in
the code. -/
theorem startTransport_empty_seq_cex :
    emptySeqState.seq = [] ∧
    emptySeqState.isTransportRunning = false ∧
    (startTransport 0 1 emptySeqState).isTransportRunning = true ∧
    (startTransport 0 1 emptySeqState).scheduled = some 1 := by
  refine ⟨rfl, rfl, rfl, ?_⟩
  norm_num [startTransport, emptySeqState, baseState]

/-- Claim C7 (amended): `startTransport` performs no empty-sequence
check: with a cursor present and the transport idle it starts and arms a
beat even when the sequence is empty; it returns without any state change
only when already running or when no cursor exists. -/
theorem startTransport_empty_seq_starts (s : TransportState) (now spb : ℚ)
    (hIdle : s.isTransportRunning = false) (hCur : s.cursorPresent = true)
    (hEmpty : s.seq = []) :
    (startTransport now spb s).isTransportRunning = true ∧
    (startTransport now spb s).scheduled = some (now + spb) ∧
    (startTransport now spb s).seq = [] := by
  simp only [startTransport, hIdle, hCur]
  cases hEn : s.dynamicTempoEnabled <;> simp [hEn, hEmpty]

/-- Witness for C7 (amended) at the concrete empty-sequence state. -/
theorem startTransport_empty_seq_starts_witness :
    emptySeqState.isTransportRunning = false ∧
    emptySeqState.cursorPresent = true ∧
    emptySeqState.seq = [] ∧
    ((startTransport 0 1 emptySeqState).isTransportRunning = true ∧
     (startTransport 0 1 emptySeqState).scheduled = some (0 + 1) ∧
     (startTransport 0 1 emptySeqState).seq = []) :=
  ⟨rfl, rfl, rfl, startTransport_empty_seq_starts emptySeqState 0 1 rfl rfl rfl⟩

/-- Claim C8 counterexample: an accurate streak that began at t = 100 and
has lasted exactly 250 ms at now = 350 — "at least 250 ms" — does not
start the transport: the gate requires strictly more than 250 ms. -/
theorem stableStep_boundary_cex :
    (350 : ℚ) - 100 ≥ 250 ∧ (stableStep 100 350 true).2 = false := by
  refine ⟨by norm_num, ?_⟩
  norm_num [stableStep]

/-- Claim C8 (amended): while awaiting the first correct note, the
transport starts exactly when the uninterrupted accurate streak has
lasted strictly more than 250 ms (measured from the first accurate
sample); any sample failing the tolerance check resets the streak to
empty. -/
theorem stableStep_fires_iff_strict (t now : ℚ) (acc : Bool) :
    stableStep t now false = (0, false) ∧
    (stableStep t now true).1 = (if t = 0 then now else t) ∧
    ((stableStep t now acc).2 = true ↔
      acc = true ∧ 250 < now - (if t = 0 then now else t)) := by
  refine ⟨rfl, rfl, ?_⟩
  cases acc <;> simp [stableStep]

theorem curMeasureAt_one_le (score : List CursorStep) (pos : Nat) :
    1 ≤ curMeasureAt score pos := by
  unfold curMeasureAt
  cases score[pos]? with
  | none => exact le_refl 1
  | some st => exact Nat.le_add_left 1 st.measureIdx

theorem firstNoteTs_none (score : List CursorStep)
    (h : getFirstNoteTimestampForMeasure 1 score = none) :
    ∀ st ∈ score, st.measureIdx = 0 → st.notes = 0 := by
  induction score with
  | nil => intro st hst; cases hst
  | cons a rest ih =>
    rw [getFirstNoteTimestampForMeasure] at h
    by_cases hc : a.measureIdx + 1 = 1 ∧ 0 < a.notes
    · rw [if_pos hc] at h; cases h
    · rw [if_neg hc] at h
      intro st hst hm0
      rcases List.mem_cons.mp hst with rfl | hmem
      · by_contra hne
        exact hc ⟨by omega, by omega⟩
      · exact ih h st hmem hm0

theorem firstNoteTs_some (score : List CursorStep) (t : ℚ)
    (h : getFirstNoteTimestampForMeasure 1 score = some t) :
    ∃ (k : Nat) (stk : CursorStep), score[k]? = some stk ∧
      stk.measureIdx = 0 ∧ 0 < stk.notes ∧ stk.timestamp = t ∧
      ∀ (j : Nat) (stj : CursorStep), j < k → score[j]? = some stj →
        ¬(stj.measureIdx = 0 ∧ 0 < stj.notes) := by
  induction score with
  | nil => simp [getFirstNoteTimestampForMeasure] at h
  | cons a rest ih =>
    rw [getFirstNoteTimestampForMeasure] at h
    by_cases hc : a.measureIdx + 1 = 1 ∧ 0 < a.notes
    · rw [if_pos hc] at h
      injection h with hts
      exact ⟨0, a, List.getElem?_cons_zero, by omega, hc.2, hts,
        fun j stj hj _ => absurd hj (by omega)⟩
    · rw [if_neg hc] at h
      obtain ⟨k, stk, hk, hkm, hkn, hkt, hmin⟩ := ih h
      refine ⟨k + 1, stk, ?_, hkm, hkn, hkt, ?_⟩
      · rw [List.getElem?_cons_succ]; exact hk
      · intro j stj hj hsome
        cases j with
        | zero =>
          rw [List.getElem?_cons_zero] at hsome
          injection hsome with he
          subst he
          intro hP
          exact hc ⟨by omega, hP.2⟩
        | succ j =>
          rw [List.getElem?_cons_succ] at hsome
          exact hmin j stj (by omega) hsome

theorem scanToMeasure_stops (score : List CursorStep) (firstTs : Option ℚ)
    (k : Nat) (hk1 : curMeasureAt score k = 1)
    (hk2 : reachedFirstTs firstTs (tsAt score k) = true) :
    ∀ fuel pos, pos ≤ k → k - pos < fuel →
    (∀ i, pos ≤ i → i < k →
      curMeasureAt score i = 1 ∧
      ¬(reachedFirstTs firstTs (tsAt score i) = true)) →
    scanToMeasure score 1 firstTs pos fuel = k := by
  intro fuel
  induction fuel with
  | zero => intro pos h1 h2 _; omega
  | succ fuel ih =>
    intro pos hle hfuel hno
    rcases Nat.lt_or_ge pos k with hlt | hge
    · obtain ⟨hm1, hnr⟩ := hno pos le_rfl hlt
      simp only [scanToMeasure]
      rw [hm1, if_neg (lt_irrefl 1), if_neg (fun hand => hnr hand.2)]
      exact ih (pos + 1) (by omega) (by omega)
        (fun i hpi hik => hno i (by omega) hik)
    · have hpk : pos = k := by omega
      subst hpk
      simp only [scanToMeasure]
      rw [hk1, if_neg (lt_irrefl 1), if_pos ⟨rfl, hk2⟩]

theorem scanToMeasure_none_zero (score : List CursorStep) (fuel : Nat) :
    scanToMeasure score 1 none 0 (fuel + 1) = 0 := by
  simp only [scanToMeasure]
  have h1 : 1 ≤ curMeasureAt score 0 := curMeasureAt_one_le score 0
  by_cases hm : 1 < curMeasureAt score 0
  · rw [if_pos hm]
  · rw [if_neg hm, if_pos ⟨by omega, rfl⟩]

theorem scanToNote_stop (score : List CursorStep) (pos fuel : Nat)
    (h : 0 < notesAt score pos) :
    scanToNote score 1 pos (fuel + 1) = pos := by
  simp only [scanToNote]
  by_cases hm : curMeasureAt score pos ≠ 1
  · rw [if_pos hm]
  · rw [if_neg hm, if_pos h]

theorem scanToNote_zeros (score : List CursorStep) :
    ∀ fuel pos, (∀ i, i < pos → notesAt score i = 0) →
    ∀ i, i < scanToNote score 1 pos fuel → notesAt score i = 0 := by
  intro fuel
  induction fuel with
  | zero =>
    intro pos hpre i hi
    simp only [scanToNote] at hi
    exact hpre i hi
  | succ fuel ih =>
    intro pos hpre i hi
    simp only [scanToNote] at hi
    by_cases hm : curMeasureAt score pos ≠ 1
    · rw [if_pos hm] at hi; exact hpre i hi
    · rw [if_neg hm] at hi
      by_cases hn : 0 < notesAt score pos
      · rw [if_pos hn] at hi; exact hpre i hi
      · rw [if_neg hn] at hi
        refine ih (pos + 1) ?_ i hi
        intro j hj
        rcases Nat.lt_or_ge j pos with h1 | h1
        · exact hpre j h1
        · have hjp : j = pos := by omega
          subst hjp
          omega

/-- Claim C9: for every well-formed score (measure indices
non-decreasing along the cursor, timestamps strictly increasing, within
the code's own 4096-step scan guard), `jumpToMeasure 1` positions the
cursor at sequence element index 0 — no note-bearing slice lies strictly
before the final cursor position, and when measure 1 contains a note the
cursor lands on a note-bearing slice — regardless of the prior cursor
position. -/
theorem jumpToMeasure_one_first_element (score : List CursorStep)
    (hm : score.Pairwise (fun a b => a.measureIdx ≤ b.measureIdx))
    (ht : score.Pairwise (fun a b => a.timestamp < b.timestamp))
    (hlen : score.length ≤ 4096) (priorPos : Nat) :
    (∀ i, i < jumpToMeasure 1 score priorPos → notesAt score i = 0) ∧
    ((∃ st ∈ score, st.measureIdx = 0 ∧ 0 < st.notes) →
      0 < notesAt score (jumpToMeasure 1 score priorPos)) := by
  rw [List.pairwise_iff_getElem] at hm ht
  simp only [jumpToMeasure]
  cases hfts : getFirstNoteTimestampForMeasure 1 score with
  | none =>
    rw [show (4096 : Nat) = 4095 + 1 from rfl, scanToMeasure_none_zero]
    constructor
    · exact scanToNote_zeros score 256 0 (fun i hi => absurd hi (by omega))
    · rintro ⟨st, hst, hm0, hn⟩
      have := firstNoteTs_none score hfts st hst hm0
      omega
  | some t =>
    obtain ⟨k, stk, hk, hkm, hkn, hkt, hmin⟩ := firstNoteTs_some score t hfts
    have hklen : k < score.length := (List.getElem?_eq_some.mp hk).1
    have hkget : score[k] = stk := by
      have h3 := List.getElem?_eq_getElem hklen
      rw [hk] at h3
      exact (Option.some.inj h3).symm
    have hfacts : ∀ i, i < k → ∃ sti, score[i]? = some sti ∧
        sti.measureIdx = 0 ∧ sti.notes = 0 ∧ sti.timestamp < t := by
      intro i hik
      have hilen : i < score.length := by omega
      have hm0 : score[i].measureIdx = 0 := by
        have h1 := hm i k hilen hklen hik
        rw [hkget] at h1
        omega
      have hn0 : score[i].notes = 0 := by
        have hnP := hmin i score[i] hik (List.getElem?_eq_getElem hilen)
        by_contra hne
        exact hnP ⟨hm0, Nat.pos_of_ne_zero hne⟩
      have hts : score[i].timestamp < t := by
        have h1 := ht i k hilen hklen hik
        rw [hkget] at h1
        rw [← hkt]
        exact h1
      exact ⟨score[i], List.getElem?_eq_getElem hilen, hm0, hn0, hts⟩
    have hstop1 : curMeasureAt score k = 1 := by
      unfold curMeasureAt
      rw [hk]
      show stk.measureIdx + 1 = 1
      omega
    have hstop2 : reachedFirstTs (some t) (tsAt score k) = true := by
      unfold reachedFirstTs tsAt
      rw [hk]
      show decide (t ≤ stk.timestamp) = true
      simp [hkt]
    have hno : ∀ i, 0 ≤ i → i < k →
        curMeasureAt score i = 1 ∧
        ¬(reachedFirstTs (some t) (tsAt score i) = true) := by
      intro i _ hik
      obtain ⟨sti, hsome, hmi, hni, htsi⟩ := hfacts i hik
      constructor
      · unfold curMeasureAt
        rw [hsome]
        show sti.measureIdx + 1 = 1
        omega
      · unfold reachedFirstTs tsAt
        rw [hsome]
        show ¬(decide (t ≤ sti.timestamp) = true)
        simp only [decide_eq_true_eq]
        exact not_le.mpr htsi
    have hp1 : scanToMeasure score 1 (some t) 0 4096 = k :=
      scanToMeasure_stops score (some t) k hstop1 hstop2 4096 0
        (by omega) (by omega) hno
    have hnotesk : 0 < notesAt score k := by
      unfold notesAt
      rw [hk]
      exact hkn
    rw [hp1, show (256 : Nat) = 255 + 1 from rfl,
      scanToNote_stop score k 255 hnotesk]
    constructor
    · intro i hi
      obtain ⟨sti, hsome, _, hni, _⟩ := hfacts i hi
      unfold notesAt
      rw [hsome]
      exact hni
    · intro _
      exact hnotesk

/-- Witness for C9 at a concrete three-slice score and prior position 7. -/
theorem jumpToMeasure_one_first_element_witness :
    sampleScore.Pairwise (fun a b => a.measureIdx ≤ b.measureIdx) ∧
    sampleScore.Pairwise (fun a b => a.timestamp < b.timestamp) ∧
    sampleScore.length ≤ 4096 ∧
    ((∀ i, i < jumpToMeasure 1 sampleScore 7 → notesAt sampleScore i = 0) ∧
     ((∃ st ∈ sampleScore, st.measureIdx = 0 ∧ 0 < st.notes) →
       0 < notesAt sampleScore (jumpToMeasure 1 sampleScore 7))) :=
  ⟨by decide, by decide, by decide,
    jumpToMeasure_one_first_element sampleScore (by decide) (by decide)
      (by decide) 7⟩
